import Mathlib

/-!
Shallow embedding of the generic CRUD repository layer of
`nestjs-abstract-generic-crud-mysql` (file
`src/common/repositories/abstract.repository.ts`, hardened revision with
error translation, together with `src/common/dto/pagination.dto.ts`).

Modelling conventions:
* TypeScript optional strings become `Option String`; JavaScript truthiness
  of a string (`if (s)`) is `s` being present and nonempty.
* A JavaScript numeric id is either an integer or `NaN` (`JsNum`), since the
  repository only inspects ids through `isNaN` and primary-key equality.
* NestJS exceptions become the `Err` structure: `invalidArgument` stands for
  `BadRequestException` (HTTP 400), `notFound` for `NotFoundException` (404),
  `conflict` for `ConflictException` (409) and `internal` for
  `InternalServerErrorException` (500).
* The external `JSON.parse` builtin is a parameter
  `parse : String -> Option (List (String × Value))`: `none` models a parse
  exception, `some kvs` the decoded object in `Object.keys` order.
* MySQL storage is a `List Row`; the driver error object is `DbError`
  (structured `code` plus human-readable `message`).
* `MySQL LIKE` under the default case-insensitive collation is modelled by
  `likeMatch` over lower-cased character lists, with the `%` and `_`
  wildcards of the patterns the repository builds.
-/

/-- Scalar column values stored in a row or decoded from a filters payload. -/
inductive Value where
  | str (s : String)
  | num (n : Int)
  | bool (b : Bool)
  | null
deriving DecidableEq

/-- A stored row: integer primary key plus the remaining named columns. -/
structure Row where
  id : Int
  cols : List (String × Value)
deriving DecidableEq

/-- Error taxonomy of the NestJS exceptions thrown by the repository. -/
inductive ErrKind where
  | invalidArgument
  | notFound
  | conflict
  | internal
deriving DecidableEq

/-- A thrown NestJS HttpException: kind plus its message. -/
structure Err where
  kind : ErrKind
  message : String
deriving DecidableEq

/-- A structured MySQL driver error: error code plus human-readable message. -/
structure DbError where
  code : String
  message : String
deriving DecidableEq

/-- Embedding of `AbstractPaginationDto` (pagination.dto.ts): validated page
and limit plus the optional sort, order, search and raw filters fields. -/
structure AbstractPaginationDto where
  page : Nat := 1
  limit : Nat := 10
  sortBy : Option String := none
  order : Option String := none
  search : Option String := none
  filters : Option String := none
deriving DecidableEq

/-- Embedding of `PaginatedResult` (pagination.dto.ts). -/
structure PaginatedResult where
  data : List Row
  total : Nat
  page : Nat
  limit : Nat
deriving DecidableEq

/-- The WHERE/ORDER BY/OFFSET/LIMIT plan that `findAll` accumulates on the
TypeORM query builder before executing it. -/
structure QueryPlan where
  eqFilters : List (String × Value)
  searchGroup : Option (List (String × String))
  sortColumn : String
  sortDesc : Bool
  skip : Nat
  take : Nat
deriving DecidableEq

/-- Column access: `e.id` resolves to the primary key, any other column is
looked up among the row's named columns (`NULL` when absent). -/
def getCol (r : Row) (c : String) : Value :=
  if c == "id" then .num r.id else ((r.cols.lookup c).getD .null)

/-- Lower-cased character sequence of a string; stands for the
case-insensitive collation MySQL compares under. -/
def lowChars (s : String) : List Char :=
  s.data.map Char.toLower

/-- Test whether a pattern has none of the `LIKE` wildcard characters. -/
def noWild (l : List Char) : Bool :=
  !(l.contains '%') && !(l.contains '_')

/-- Decide whether the first list is a front segment of the second. -/
def leadsWith : List Char → List Char → Bool
  | [], _ => true
  | _ :: _, [] => false
  | c :: w, d :: t => c == d && leadsWith w t

/-- Decide whether the first list occurs contiguously inside the second. -/
def hasSeg (w : List Char) : List Char → Bool
  | [] => leadsWith w []
  | d :: t => leadsWith w (d :: t) || hasSeg w t

/-- All suffixes of a character list, the list itself first, ending in `[]`. -/
def tailsOf : List Char → List (List Char)
  | [] => [[]]
  | c :: t => (c :: t) :: tailsOf t

/-- Semantics of a MySQL `LIKE` pattern over character lists: `%` matches any
sequence (some suffix of the text carries the rest of the pattern), `_` any
single character, anything else itself. -/
def likeMatch : List Char → List Char → Bool
  | [], s => s.isEmpty
  | p :: ps, s =>
    if p = '%' then (tailsOf s).any fun t => likeMatch ps t
    else
      match s with
      | [] => false
      | c :: s' => if p = '_' then likeMatch ps s' else p == c && likeMatch ps s'

/-- Evaluate `column LIKE pattern` on a stored value under the default
case-insensitive collation; non-string values never match the patterns the
repository builds. -/
def likeMatches (v : Value) (pat : String) : Bool :=
  match v with
  | .str s => likeMatch (lowChars pat) (lowChars s)
  | _ => false

/-- Conjunction of the equality predicates added from the filters payload
(the `andWhere` calls of the filters loop). -/
def matchesEq (eqs : List (String × Value)) (r : Row) : Bool :=
  eqs.all fun kv => getCol r kv.1 == kv.2

/-- Disjunction of the `LIKE` predicates of the bracketed search group; an
absent group restricts nothing. -/
def matchesSearch (g : Option (List (String × String))) (r : Row) : Bool :=
  match g with
  | none => true
  | some pats => pats.any fun cp => likeMatches (getCol r cp.1) cp.2

/-- A row satisfies the whole WHERE clause: all filter predicates AND the
search group. -/
def rowMatches (plan : QueryPlan) (r : Row) : Bool :=
  matchesEq plan.eqFilters r && matchesSearch plan.searchGroup r

/-- Comparator on stored values used to model `ORDER BY` on one column. -/
def charListLe : List Char → List Char → Bool
  | [], _ => true
  | _ :: _, [] => false
  | c :: cs, d :: ds =>
    decide (c < d) || (c == d && charListLe cs ds)

/-- Comparator on scalar values: numbers by magnitude, strings in
dictionary order; the remaining cases are untouched by any claim. -/
def valueLe (a b : Value) : Bool :=
  match a, b with
  | .num n, .num m => decide (n ≤ m)
  | .str s, .str t => charListLe s.data t.data
  | .bool x, .bool y => !x || y
  | _, _ => true

/-- Row order requested by the plan: by the resolved sort column, reversed
when the direction is `DESC`. -/
def rowLe (plan : QueryPlan) (a b : Row) : Bool :=
  if plan.sortDesc then valueLe (getCol b plan.sortColumn) (getCol a plan.sortColumn)
  else valueLe (getCol a plan.sortColumn) (getCol b plan.sortColumn)

/-- Insert a row into an already ordered list. -/
def insertRow (le : Row → Row → Bool) (r : Row) : List Row → List Row
  | [] => [r]
  | x :: xs => if le r x then r :: x :: xs else x :: insertRow le r xs

/-- Order the matched rows as `ORDER BY` does (insertion sort; the engine
order among ties is unspecified and no claim depends on it). -/
def sortRows (plan : QueryPlan) : List Row → List Row
  | [] => []
  | x :: xs => insertRow (rowLe plan) x (sortRows plan xs)

/-- The filters stage of `findAll`: a truthy `filters` payload goes through
`JSON.parse` inside a `try`; a parse exception becomes
`BadRequestException("Invalid filters JSON")`, and the loop adds one equality
predicate per key of the decoded object. -/
def decodeFilters (parse : String → Option (List (String × Value))) :
    Option String → Except Err (List (String × Value))
  | some f =>
    if f == "" then .ok []
    else
      match parse f with
      | some kvs => .ok kvs
      | none => .error ⟨.invalidArgument, "Invalid filters JSON"⟩
  | none => .ok []

/-- The search stage of `findAll`: a truthy `search` together with a
non-empty searchable column list yields the bracketed OR-group of
`column LIKE :param` predicates with pattern percent-search-percent, one per
searchable column; otherwise nothing is added. -/
def searchGroupOf (searchableColumns : List String) :
    Option String → Option (List (String × String))
  | some s =>
    if s == "" || searchableColumns.isEmpty then none
    else some (searchableColumns.map fun c => (c, "%" ++ s ++ "%"))
  | none => none

/-- The `safeSort` const of `findAll`: a truthy `sortBy` contained in the
sortable columns is used, anything else falls back to `id`. -/
def safeSortOf (sortableColumns : List String) : Option String → String
  | some s => if s != "" && sortableColumns.contains s then s else "id"
  | none => "id"

/-- Character-wise upper-casing, the `toUpperCase()` of the source on the
ASCII column names and directions in play. -/
def toUpperCase (s : String) : String :=
  String.mk (s.data.map Char.toUpper)

/-- The sort direction of `findAll`: `DESC` exactly when a truthy `order`
upper-cases to the string `DESC`, else `ASC`. -/
def orderDescOf : Option String → Bool
  | some o => o != "" && toUpperCase o == "DESC"
  | none => false

/-- Build the query plan exactly as `findAll` does on the query builder:
filters loop, bracketed search group, whitelisted sort column with
direction, and `skip`/`take` from page and limit. -/
def buildPlan (parse : String → Option (List (String × Value)))
    (searchableColumns sortableColumns : List String)
    (p : AbstractPaginationDto) : Except Err QueryPlan :=
  match decodeFilters parse p.filters with
  | .error e => .error e
  | .ok eqFilters =>
    .ok ⟨eqFilters, searchGroupOf searchableColumns p.search,
      safeSortOf sortableColumns p.sortBy, orderDescOf p.order,
      (p.page - 1) * p.limit, p.limit⟩

/-- Rows matching the WHERE clause, in storage order (what the COUNT of
`getManyAndCount` counts). -/
def matchedRows (plan : QueryPlan) (table : List Row) : List Row :=
  table.filter fun r => rowMatches plan r

/-- The page of rows the SELECT of `getManyAndCount` returns: match, order,
then apply `skip` and `take`. -/
def pageRows (plan : QueryPlan) (table : List Row) : List Row :=
  ((sortRows plan (matchedRows plan table)).drop plan.skip).take plan.take

/-- Body of `findAll` inside its outer `try`: build the plan, execute it and
assemble the `PaginatedResult`. -/
def findAllInner (parse : String → Option (List (String × Value)))
    (searchableColumns sortableColumns : List String)
    (table : List Row) (p : AbstractPaginationDto) : Except Err PaginatedResult :=
  match buildPlan parse searchableColumns sortableColumns p with
  | .error e => .error e
  | .ok plan =>
    .ok ⟨pageRows plan table, (matchedRows plan table).length, p.page, p.limit⟩

/-- Embedding of `AbstractRepository.findAll`: the whole body runs under a
blanket `catch` that rethrows any error as
`InternalServerErrorException(error.message)`. -/
def findAll (parse : String → Option (List (String × Value)))
    (searchableColumns sortableColumns : List String)
    (table : List Row) (p : AbstractPaginationDto) : Except Err PaginatedResult :=
  match findAllInner parse searchableColumns sortableColumns table p with
  | .ok r => .ok r
  | .error e => .error ⟨.internal, e.message⟩

/-- A JavaScript numeric id: an integer, or `NaN`. -/
inductive JsNum where
  | val (n : Int)
  | nan
deriving DecidableEq

/-- Embedding of `AbstractRepository.findOne`: reject `NaN`, look the row up
by primary key, throw `NotFoundException` when absent. -/
def findOne (id : JsNum) (table : List Row) : Except Err Row :=
  match id with
  | .nan => .error ⟨.invalidArgument, "Invalid id format"⟩
  | .val n =>
    match table.find? (fun r => r.id == n) with
    | some r => .ok r
    | none => .error ⟨.notFound, "Entity with id " ++ toString n ++ " not found"⟩

/-- Remainder of the list after the first occurrence of `marker`, when the
marker occurs at all. -/
def afterFirst (marker : List Char) : List Char → Option (List Char)
  | [] => if marker.isEmpty then some [] else none
  | c :: t =>
    if leadsWith marker (c :: t) then some ((c :: t).drop marker.length)
    else afterFirst marker t

/-- Content standing before the last apostrophe of the list, when the list
holds an apostrophe at all. -/
def beforeLastQuote (s : List Char) : Option (List Char) :=
  match s.reverse.dropWhile (fun c => !(c == '\x27')) with
  | [] => none
  | _ :: rest => some rest.reverse

/-- Embedding of `AbstractRepository.extractDuplicateField`: the regex
`for key \x27(.+)\x27` applied to the driver message — everything between the
first `for key \x27` marker and the last apostrophe after it (the greedy
capture), `unknown` when the pattern is absent or captures nothing. -/
def extractDuplicateField (message : String) : String :=
  match afterFirst ("for key \x27".data) message.data with
  | none => "unknown"
  | some rest =>
    match beforeLastQuote rest with
    | none => "unknown"
    | some captured => if captured.isEmpty then "unknown" else String.mk captured

/-- Embedding of `AbstractRepository.create`: the save either yields the
persisted row or a driver error, translated by the `catch` block — code
`ER_DUP_ENTRY` becomes a `ConflictException` whose message embeds
`extractDuplicateField`, anything else an
`InternalServerErrorException(error.message)`. -/
def create (saveResult : Except DbError Row) : Except Err Row :=
  match saveResult with
  | .ok r => .ok r
  | .error e =>
    if e.code == "ER_DUP_ENTRY" then
      .error ⟨.conflict, "Duplicate value for unique field(s): " ++ extractDuplicateField e.message⟩
    else .error ⟨.internal, e.message⟩

/-- An error reaching the `catch` block of `update`: either a driver error
(carrying a `code` field) or a NestJS HttpException (whose `code` is
`undefined`). -/
inductive Thrown where
  | db (e : DbError)
  | http (e : Err)

/-- The `error.code` the `catch` block inspects. -/
def thrownCode : Thrown → Option String
  | .db e => some e.code
  | .http _ => none

/-- The `error.message` the `catch` block propagates. -/
def thrownMessage : Thrown → String
  | .db e => e.message
  | .http e => e.message

/-- Embedding of `AbstractRepository.update`: reject `NaN`; run the UPDATE
(whose driver outcome is `writeResult`; an UPDATE touching no row succeeds),
read the row back with `findOne` against the post-write table, and translate
whatever the `try` block threw: `ER_DUP_ENTRY` to `ConflictException`,
everything else — including the `NotFoundException` of the read-back — to
`InternalServerErrorException(error.message)`. -/
def update (id : JsNum) (writeResult : Except DbError Unit)
    (tableAfter : List Row) : Except Err Row :=
  match id with
  | .nan => .error ⟨.invalidArgument, "Invalid id format"⟩
  | .val n =>
    let inner : Except Thrown Row :=
      match writeResult with
      | .error e => .error (.db e)
      | .ok _ =>
        match findOne (.val n) tableAfter with
        | .ok r => .ok r
        | .error e => .error (.http e)
    match inner with
    | .ok r => .ok r
    | .error e =>
      if thrownCode e == some "ER_DUP_ENTRY" then
        .error ⟨.conflict, "Duplicate value for unique field(s): " ++ extractDuplicateField (thrownMessage e)⟩
      else .error ⟨.internal, thrownMessage e⟩

/-- Embedding of `AbstractRepository.delete`: reject `NaN`, run the DELETE by
primary key, and throw `NotFoundException` exactly when it affected zero
rows; on success the resulting table is returned as the post-state. -/
def delete (id : JsNum) (table : List Row) : Except Err (List Row) :=
  match id with
  | .nan => .error ⟨.invalidArgument, "Invalid id format"⟩
  | .val n =>
    let affected := (table.filter fun r => r.id == n).length
    if affected == 0 then
      .error ⟨.notFound, "Entity with id " ++ toString n ++ " not found"⟩
    else .ok (table.filter fun r => !(r.id == n))

/-- The filters payload either is absent, is the falsy empty string, or
parses; exactly the requests whose plan construction does not throw. -/
def filtersParseOk (parse : String → Option (List (String × Value)))
    (p : AbstractPaginationDto) : Bool :=
  match p.filters with
  | none => true
  | some f => f == "" || (parse f).isSome
-- lemma drafting appended to definitions
theorem length_insertRow (le : Row → Row → Bool) (r : Row) (l : List Row) :
    (insertRow le r l).length = l.length + 1 := by
  induction l with
  | nil => rfl
  | cons x xs ih =>
    simp only [insertRow]
    split <;> simp [ih]

theorem length_sortRows (plan : QueryPlan) (l : List Row) :
    (sortRows plan l).length = l.length := by
  induction l with
  | nil => rfl
  | cons x xs ih => simp [sortRows, length_insertRow, ih]

theorem leadsWith_iff (w t : List Char) :
    leadsWith w t = true ↔ ∃ r, t = w ++ r := by
  induction w generalizing t with
  | nil => simp [leadsWith]
  | cons c w ih =>
    cases t with
    | nil => simp [leadsWith]
    | cons d t =>
      simp only [leadsWith, Bool.and_eq_true, beq_iff_eq, ih]
      constructor
      · rintro ⟨rfl, r, rfl⟩; exact ⟨r, rfl⟩
      · rintro ⟨r, h⟩
        cases h
        exact ⟨rfl, r, rfl⟩

theorem hasSeg_iff (w t : List Char) :
    hasSeg w t = true ↔ ∃ u v, t = u ++ w ++ v := by
  induction t with
  | nil =>
    simp only [hasSeg, leadsWith_iff]
    constructor
    · rintro ⟨r, h⟩; exact ⟨[], r, h⟩
    · rintro ⟨u, v, h⟩
      rcases List.append_eq_nil.mp (List.append_eq_nil.mp h.symm).1 with ⟨h1, h2⟩
      exact ⟨v, by simp_all⟩
  | cons d t ih =>
    simp only [hasSeg, Bool.or_eq_true, leadsWith_iff, ih]
    constructor
    · rintro (⟨r, h⟩ | ⟨u, v, h⟩)
      · exact ⟨[], r, by simpa using h⟩
      · exact ⟨d :: u, v, by simp [h]⟩
    · rintro ⟨u, v, h⟩
      cases u with
      | nil => exact Or.inl ⟨v, by simpa using h⟩
      | cons a u =>
        rw [List.cons_append, List.cons_append] at h
        cases h
        exact Or.inr ⟨u, v, rfl⟩

theorem likeMatch_pct (t : List Char) : likeMatch ['%'] t = true := by
  induction t with
  | nil => rfl
  | cons c t ih =>
    simp only [likeMatch, tailsOf, if_pos rfl, List.any_cons] at ih ⊢
    simp_all [likeMatch]

theorem likeMatch_seg_pct (w : List Char) (hw : noWild w = true) (t : List Char) :
    likeMatch (w ++ ['%']) t = leadsWith w t := by
  induction w generalizing t with
  | nil => simp [likeMatch_pct, leadsWith]
  | cons c w ih =>
    simp only [noWild, Bool.and_eq_true, Bool.not_eq_true', List.contains_cons,
      Bool.or_eq_false_iff, beq_eq_false_iff_ne] at hw
    have hc1 : c ≠ '%' := fun h => hw.1.1 h.symm
    have hc2 : c ≠ '_' := fun h => hw.2.1 h.symm
    have hw' : noWild w = true := by
      simp [noWild, Bool.and_eq_true, Bool.not_eq_true']
      exact ⟨by simpa using hw.1.2, by simpa using hw.2.2⟩
    cases t with
    | nil => simp [likeMatch, leadsWith, hc1]
    | cons d t =>
      simp [likeMatch, leadsWith, hc1, hc2, ih hw']

theorem likeMatch_pct_seg_pct (w : List Char) (hw : noWild w = true) (t : List Char) :
    likeMatch ('%' :: (w ++ ['%'])) t = hasSeg w t := by
  induction t with
  | nil =>
    simp [likeMatch, tailsOf, hasSeg, likeMatch_seg_pct w hw]
  | cons d t ih =>
    simp only [likeMatch, if_true, eq_self_iff_true, tailsOf, List.any_cons,
      likeMatch_seg_pct w hw] at ih ⊢
    simp only [hasSeg, ih]

theorem lowChars_append (a b : String) :
    lowChars (a ++ b) = lowChars a ++ lowChars b := by
  cases a; cases b
  simp [lowChars, String.append, List.map_append]

theorem lowChars_pattern (s : String) :
    lowChars ("%" ++ s ++ "%") = '%' :: (lowChars s ++ ['%']) := by
  rw [lowChars_append, lowChars_append]
  rfl

theorem buildPlan_eq_of_decode {parse : String → Option (List (String × Value))}
    {sc so : List String} {p : AbstractPaginationDto} {eqf : List (String × Value)}
    (h : decodeFilters parse p.filters = .ok eqf) :
    buildPlan parse sc so p =
      .ok ⟨eqf, searchGroupOf sc p.search, safeSortOf so p.sortBy,
        orderDescOf p.order, (p.page - 1) * p.limit, p.limit⟩ := by
  simp [buildPlan, h]

theorem buildPlan_inv {parse : String → Option (List (String × Value))}
    {sc so : List String} {p : AbstractPaginationDto} {plan : QueryPlan}
    (h : buildPlan parse sc so p = .ok plan) :
    decodeFilters parse p.filters = .ok plan.eqFilters ∧
    plan.searchGroup = searchGroupOf sc p.search ∧
    plan.sortColumn = safeSortOf so p.sortBy ∧
    plan.sortDesc = orderDescOf p.order ∧
    plan.skip = (p.page - 1) * p.limit ∧
    plan.take = p.limit := by
  unfold buildPlan at h
  cases hd : decodeFilters parse p.filters with
  | error e => rw [hd] at h; exact absurd h (by simp)
  | ok eqf =>
    rw [hd] at h
    cases h
    exact ⟨rfl, rfl, rfl, rfl, rfl, rfl⟩

theorem findAll_ok_of_plan {parse : String → Option (List (String × Value))}
    {sc so : List String} {table : List Row} {p : AbstractPaginationDto}
    {plan : QueryPlan} (h : buildPlan parse sc so p = .ok plan) :
    findAll parse sc so table p =
      .ok ⟨pageRows plan table, (matchedRows plan table).length, p.page, p.limit⟩ := by
  simp [findAll, findAllInner, h]

theorem decodeFilters_ok {parse : String → Option (List (String × Value))}
    {p : AbstractPaginationDto} (h : filtersParseOk parse p = true) :
    ∃ eqf, decodeFilters parse p.filters = .ok eqf := by
  unfold filtersParseOk at h
  cases hf : p.filters with
  | none => exact ⟨[], rfl⟩
  | some f =>
    rw [hf] at h
    by_cases he : f = ""
    · subst he; exact ⟨[], rfl⟩
    · simp only [he, beq_iff_eq, Bool.or_eq_true, decide_eq_true_eq, false_or] at h
      rcases hp : parse f with _ | kvs
      · rw [hp] at h; simp at h
      · refine ⟨kvs, ?_⟩
        simp [decodeFilters, he, hp]

theorem delete_eq_notFound_iff (n : Int) (table : List Row) :
    (delete (.val n) table =
      .error ⟨.notFound, "Entity with id " ++ toString n ++ " not found"⟩) ↔
    ∀ r ∈ table, r.id ≠ n := by
  have key : ((table.filter fun r => r.id == n) = []) ↔ (∀ r ∈ table, r.id ≠ n) := by
    rw [List.filter_eq_nil_iff]
    simp
  constructor
  · intro h
    by_cases hnil : (table.filter fun r => r.id == n) = []
    · exact key.mp hnil
    · exfalso
      have hlen : ((table.filter fun r => r.id == n).length == 0) = false := by
        simp [List.length_eq_zero, hnil]
      simp [delete, hlen] at h
  · intro hall
    have hnil : (table.filter fun r => r.id == n) = [] := key.mpr hall
    simp [delete, hnil]

theorem delete_eq_ok (n : Int) (table : List Row)
    (h : ∃ r ∈ table, r.id = n) :
    delete (.val n) table = .ok (table.filter fun r => !(r.id == n)) := by
  rcases h with ⟨r, hr, hid⟩
  have hnil : (table.filter fun x => x.id == n) ≠ [] := by
    intro hcontra
    have := (List.filter_eq_nil_iff.mp hcontra) r hr
    simp [hid] at this
  have hlen : ((table.filter fun x => x.id == n).length == 0) = false := by
    simp [List.length_eq_zero, hnil]
  simp [delete, hlen]

/-- C6: `findOne` rejects a malformed (`NaN`) id with `BadRequestException`
(`InvalidArgument`); when no row carries the primary key it throws
`NotFoundException` rather than returning an empty success value; otherwise it
returns the found row. -/
theorem findOne_point_read_spec (id : JsNum) (table : List Row) :
    (id = .nan → findOne id table = .error ⟨.invalidArgument, "Invalid id format"⟩) ∧
    (∀ n : Int, id = .val n →
      ((∀ r ∈ table, r.id ≠ n) →
        findOne id table =
          .error ⟨.notFound, "Entity with id " ++ toString n ++ " not found"⟩) ∧
      (∀ r : Row, table.find? (fun x => x.id == n) = some r →
        findOne id table = .ok r)) := by
  refine ⟨?_, ?_⟩
  · rintro rfl; rfl
  · rintro n rfl
    refine ⟨?_, ?_⟩
    · intro hnone
      have hfind : table.find? (fun x => x.id == n) = none := by
        apply List.find?_eq_none.mpr
        intro x hx
        simpa using hnone x hx
      simp [findOne, hfind]
    · intro r hr
      simp [findOne, hr]

/-- C6 witness: evaluating `findOne` at concrete inputs through the theorem. -/
theorem findOne_point_read_spec_witness :
    findOne JsNum.nan [] = .error ⟨.invalidArgument, "Invalid id format"⟩ ∧
    findOne (JsNum.val 2) [⟨1, []⟩] =
      .error ⟨.notFound, "Entity with id 2 not found"⟩ ∧
    findOne (JsNum.val 1) [⟨1, []⟩] = .ok ⟨1, []⟩ :=
  ⟨(findOne_point_read_spec JsNum.nan []).1 rfl,
   ((findOne_point_read_spec (JsNum.val 2) [⟨1, []⟩]).2 2 rfl).1 (by decide),
   ((findOne_point_read_spec (JsNum.val 1) [⟨1, []⟩]).2 1 rfl).2 ⟨1, []⟩ rfl⟩

/-- C7: `delete` rejects a malformed (`NaN`) id with `InvalidArgument`, fails
with `NotFound` exactly when the DELETE affected zero rows, and hence deleting
the same existing id twice succeeds once and then fails with `NotFound`. -/
theorem delete_idempotence_spec (n : Int) (table : List Row) :
    (delete .nan table = .error ⟨.invalidArgument, "Invalid id format"⟩) ∧
    ((delete (.val n) table =
        .error ⟨.notFound, "Entity with id " ++ toString n ++ " not found"⟩) ↔
      (∀ r ∈ table, r.id ≠ n)) ∧
    ((∃ r ∈ table, r.id = n) →
      ∃ table2, delete (.val n) table = .ok table2 ∧
        delete (.val n) table2 =
          .error ⟨.notFound, "Entity with id " ++ toString n ++ " not found"⟩) := by
  refine ⟨rfl, delete_eq_notFound_iff n table, ?_⟩
  intro hex
  refine ⟨table.filter fun r => !(r.id == n), delete_eq_ok n table hex, ?_⟩
  apply (delete_eq_notFound_iff n _).mpr
  intro r hr
  have := (List.mem_filter.mp hr).2
  simpa using this

/-- C7 witness: deleting id 1 from a one-row table succeeds, a second delete
of the same id returns `NotFound`, and a `NaN` id is rejected. -/
theorem delete_idempotence_spec_witness :
    delete JsNum.nan [(⟨1, []⟩ : Row)] =
      .error ⟨.invalidArgument, "Invalid id format"⟩ ∧
    (∃ table2, delete (JsNum.val 1) [(⟨1, []⟩ : Row)] = .ok table2 ∧
      delete (JsNum.val 1) table2 =
        .error ⟨.notFound, "Entity with id 1 not found"⟩) :=
  ⟨(delete_idempotence_spec 1 [(⟨1, []⟩ : Row)]).1,
   (delete_idempotence_spec 1 [(⟨1, []⟩ : Row)]).2.2 ⟨⟨1, []⟩, by decide, rfl⟩⟩

/-- C1: evaluation of `findAll` at an unparsable filters payload. The inner
`BadRequestException("Invalid filters JSON")` is caught by the outer blanket
`catch` of `findAll` and rethrown as
`InternalServerErrorException(error.message)`, so the caller observes
`Internal`, not `InvalidArgument`; additionally a supplied empty-string
payload is falsy, skips parsing entirely, and behaves exactly like an absent
`filters` field. -/
theorem findAll_unparsable_filters_become_internal :
    findAll (fun _ => none) [] ["id"] [] ⟨1, 10, none, none, none, some "\x7b"⟩ =
      .error ⟨.internal, "Invalid filters JSON"⟩ ∧
    ErrKind.internal ≠ ErrKind.invalidArgument ∧
    findAll (fun _ => none) [] ["id"] [] ⟨1, 10, none, none, none, some ""⟩ =
      findAll (fun _ => none) [] ["id"] [] ⟨1, 10, none, none, none, none⟩ :=
  ⟨rfl, by decide, rfl⟩

/-- C5: evaluation of `update` at concrete inputs. A `NaN` id is rejected
with `InvalidArgument`; a duplicate-key driver error is translated to
`Conflict`; on success the returned entity is the row read back from the
post-write table; but for a well-formed id whose row does not exist the
`NotFoundException` of the read-back is swallowed by the blanket `catch` and
resurfaces as `Internal`, not `NotFound`. -/
theorem update_error_translation_at_inputs :
    update JsNum.nan (.ok ()) [] = .error ⟨.invalidArgument, "Invalid id format"⟩ ∧
    update (JsNum.val 1)
        (.error ⟨"ER_DUP_ENTRY", "Duplicate entry \x27a\x27 for key \x27users.email\x27"⟩) [] =
      .error ⟨.conflict, "Duplicate value for unique field(s): users.email"⟩ ∧
    update (JsNum.val 1) (.ok ()) [⟨1, [("name", .str "a")]⟩] =
      .ok ⟨1, [("name", .str "a")]⟩ ∧
    update (JsNum.val 1) (.ok ()) [] =
      .error ⟨.internal, "Entity with id 1 not found"⟩ :=
  ⟨rfl, rfl, rfl, rfl⟩

/-- C4 counterexample: two driver errors carrying the same structured code
`ER_DUP_ENTRY` produce different conflict identifications depending only on
their human-readable message text, so the offending constraint is identified
by string-parsing the message, not by structured detail alone; and a
non-duplicate storage failure surfaces as `Internal` carrying the raw
engine message verbatim. -/
theorem create_conflict_detail_from_message_text :
    create (.error ⟨"ER_DUP_ENTRY", "Duplicate entry \x27a\x27 for key \x27users.email\x27"⟩) =
      .error ⟨.conflict, "Duplicate value for unique field(s): users.email"⟩ ∧
    create (.error ⟨"ER_DUP_ENTRY", "denied"⟩) =
      .error ⟨.conflict, "Duplicate value for unique field(s): unknown"⟩ ∧
    create (.error ⟨"ER_LOCK_WAIT_TIMEOUT", "raw mysql engine message"⟩) =
      .error ⟨.internal, "raw mysql engine message"⟩ :=
  ⟨rfl, rfl, rfl⟩

/-- C4 as amended: `create` returns the saved row on success; it reports
`Conflict` exactly when the driver error carries the structured code
`ER_DUP_ENTRY`, identifying the constraint by the regex string-parse
`extractDuplicateField` of the human-readable message (which yields the key
name for the canonical MySQL message); every other storage failure surfaces
as `Internal` carrying the raw driver message. -/
theorem create_error_translation (r : Row) (e : DbError) :
    create (.ok r) = .ok r ∧
    (e.code = "ER_DUP_ENTRY" →
      create (.error e) =
        .error ⟨.conflict,
          "Duplicate value for unique field(s): " ++ extractDuplicateField e.message⟩) ∧
    (e.code ≠ "ER_DUP_ENTRY" → create (.error e) = .error ⟨.internal, e.message⟩) ∧
    extractDuplicateField
      "Duplicate entry \x27test@example.com\x27 for key \x27users.email\x27" =
      "users.email" := by
  refine ⟨rfl, ?_, ?_, rfl⟩
  · intro h
    simp [create, h]
  · intro h
    simp [create, beq_iff_eq, h]

/-- C4 witness: the amended translation evaluated at a concrete driver
error without the duplicate-entry code. -/
theorem create_error_translation_witness :
    create (.error ⟨"ERR_OTHER", "boom"⟩) = .error ⟨.internal, "boom"⟩ :=
  (create_error_translation ⟨0, []⟩ ⟨"ERR_OTHER", "boom"⟩).2.2.1 (by decide)

/-- C2: a supplied, truthy and parsable `filters` payload makes `findAll`
add exactly one equality predicate per decoded key, taken verbatim from the
caller-supplied mapping, AND-combined; this holds for every searchable and
sortable whitelist, so filter keys are not validated against any column
whitelist; an absent `filters` adds no equality predicate. -/
theorem findAll_filters_applied_unwhitelisted
    (parse : String → Option (List (String × Value)))
    (sc so : List String) (p : AbstractPaginationDto) :
    (∀ f kvs, p.filters = some f → f ≠ "" → parse f = some kvs →
      ∃ plan, buildPlan parse sc so p = .ok plan ∧ plan.eqFilters = kvs ∧
        ∀ r : Row, matchesEq plan.eqFilters r = true ↔
          ∀ kv ∈ kvs, getCol r kv.1 = kv.2) ∧
    (p.filters = none →
      ∃ plan, buildPlan parse sc so p = .ok plan ∧ plan.eqFilters = []) := by
  constructor
  · intro f kvs hf hne hp
    have hd : decodeFilters parse p.filters = .ok kvs := by
      simp [decodeFilters, hf, hne, hp]
    refine ⟨_, buildPlan_eq_of_decode hd, rfl, ?_⟩
    intro r
    simp [matchesEq, List.all_eq_true, beq_iff_eq]
  · intro hf
    have hd : decodeFilters parse p.filters = .ok [] := by
      simp [decodeFilters, hf]
    exact ⟨_, buildPlan_eq_of_decode hd, rfl⟩

/-- C2 witness: the theorem applied to a parsable payload decoding to a
one-key mapping, over a whitelist not containing that key. -/
theorem findAll_filters_applied_unwhitelisted_witness :
    ∃ plan, buildPlan
        (fun f => if f == "fjson" then some [("role", Value.str "admin")] else none)
        ["name"] ["id"] ⟨1, 10, none, none, none, some "fjson"⟩ = .ok plan ∧
      plan.eqFilters = [("role", Value.str "admin")] ∧
      ∀ r : Row, matchesEq plan.eqFilters r = true ↔
        ∀ kv ∈ [("role", Value.str "admin")], getCol r kv.1 = kv.2 :=
  (findAll_filters_applied_unwhitelisted
      (fun f => if f == "fjson" then some [("role", Value.str "admin")] else none)
      ["name"] ["id"] ⟨1, 10, none, none, none, some "fjson"⟩).1
    "fjson" [("role", Value.str "admin")] rfl (by decide) rfl

/-- C3: with no empty column name in the sortable whitelist, `findAll` sorts
by `sortBy` exactly when it is present and whitelisted, otherwise by the
primary-key column `id`; a disallowed `sortBy` never produces an error; the
direction is `DESC` exactly when `order` is present and upper-cases to
`DESC`, else `ASC`. -/
theorem findAll_sort_whitelist
    (parse : String → Option (List (String × Value)))
    (sc so : List String) (p : AbstractPaginationDto) (plan : QueryPlan)
    (hso : "" ∉ so)
    (h : buildPlan parse sc so p = .ok plan) :
    (∀ s, p.sortBy = some s → s ∈ so → plan.sortColumn = s) ∧
    (∀ s, p.sortBy = some s → s ∉ so → plan.sortColumn = "id") ∧
    (p.sortBy = none → plan.sortColumn = "id") ∧
    (plan.sortDesc = true ↔ ∃ o, p.order = some o ∧ toUpperCase o = "DESC") ∧
    (∀ sb : Option String, ∃ plan2,
      buildPlan parse sc so { p with sortBy := sb } = .ok plan2 ∧
      plan2.sortColumn = safeSortOf so sb) := by
  obtain ⟨hd, _, hsort, hdesc, _, _⟩ := buildPlan_inv h
  refine ⟨?_, ?_, ?_, ?_, ?_⟩
  · intro s hs hmem
    rw [hsort, hs]
    have hne : s ≠ "" := fun hc => hso (hc ▸ hmem)
    simp [safeSortOf, hne, hmem]
  · intro s hs hmem
    rw [hsort, hs]
    by_cases hne : s = ""
    · simp [safeSortOf, hne]
    · simp [safeSortOf, hne, hmem]
  · intro hs
    rw [hsort, hs]
    rfl
  · rw [hdesc]
    cases ho : p.order with
    | none => simp [orderDescOf]
    | some o =>
      simp only [orderDescOf, Bool.and_eq_true, bne_iff_ne, ne_eq, beq_iff_eq]
      constructor
      · rintro ⟨_, h2⟩
        exact ⟨o, rfl, h2⟩
      · rintro ⟨o2, ho2, h2⟩
        cases ho2
        refine ⟨?_, h2⟩
        intro hc
        subst hc
        exact absurd h2 (by decide)
  · intro sb
    exact ⟨_, buildPlan_eq_of_decode hd, rfl⟩

/-- C3 witness: a disallowed `sortBy` falls back to `id` with no error, with
`order` of `desc` giving the descending direction. -/
theorem findAll_sort_whitelist_witness :
    (∀ s, (some "hack" : Option String) = some s → s ∈ ["id", "name"] →
      QueryPlan.sortColumn ⟨[], none, "id", true, 0, 10⟩ = s) ∧
    (∀ s, (some "hack" : Option String) = some s → s ∉ ["id", "name"] →
      QueryPlan.sortColumn ⟨[], none, "id", true, 0, 10⟩ = "id") ∧
    ((some "hack" : Option String) = none →
      QueryPlan.sortColumn ⟨[], none, "id", true, 0, 10⟩ = "id") ∧
    (QueryPlan.sortDesc ⟨[], none, "id", true, 0, 10⟩ = true ↔
      ∃ o, (some "desc" : Option String) = some o ∧ toUpperCase o = "DESC") ∧
    (∀ sb : Option String, ∃ plan2,
      buildPlan (fun _ => none) [] ["id", "name"]
        { (⟨1, 10, some "hack", some "desc", none, none⟩ : AbstractPaginationDto)
          with sortBy := sb } = .ok plan2 ∧
      plan2.sortColumn = safeSortOf ["id", "name"] sb) :=
  findAll_sort_whitelist (fun _ => none) [] ["id", "name"]
    ⟨1, 10, some "hack", some "desc", none, none⟩
    ⟨[], none, "id", true, 0, 10⟩ (by decide) rfl

theorem length_pageRows_le_take (plan : QueryPlan) (table : List Row) :
    (pageRows plan table).length ≤ plan.take := by
  unfold pageRows
  rw [List.length_take]
  exact Nat.min_le_left _ _

theorem length_pageRows_le_matched (plan : QueryPlan) (table : List Row) :
    (pageRows plan table).length ≤ (matchedRows plan table).length := by
  unfold pageRows
  calc ((((sortRows plan (matchedRows plan table)).drop plan.skip)).take plan.take).length
      ≤ (((sortRows plan (matchedRows plan table)).drop plan.skip)).length := by
        rw [List.length_take]
        exact Nat.min_le_right _ _
    _ ≤ (sortRows plan (matchedRows plan table)).length := by
        rw [List.length_drop]
        exact Nat.sub_le _ _
    _ = (matchedRows plan table).length := length_sortRows _ _

theorem pageRows_eq_nil_of_skip (plan : QueryPlan) (table : List Row)
    (h : (matchedRows plan table).length ≤ plan.skip) : pageRows plan table = [] := by
  unfold pageRows
  have hlen : (sortRows plan (matchedRows plan table)).length ≤ plan.skip := by
    rw [length_sortRows]
    exact h
  rw [List.drop_eq_nil_of_le hlen, List.take_nil]


/-- C8: with a truthy `search`, `findAll` adds one bracketed OR-group holding
one `LIKE` predicate with pattern percent-search-percent per searchable
column, AND-combined with the equality predicates; each such predicate is
case-insensitive containment of the search text whenever the text has no
wildcard characters; with an empty searchable column list the search is
silently ignored: no predicate is added and no error is possible. -/
theorem findAll_search_group_spec
    (parse : String → Option (List (String × Value)))
    (sc so : List String) (p : AbstractPaginationDto) (s : String) (plan : QueryPlan)
    (hs : p.search = some s) (hne : s ≠ "")
    (h : buildPlan parse sc so p = .ok plan) :
    (sc ≠ [] → plan.searchGroup = some (sc.map fun c => (c, "%" ++ s ++ "%"))) ∧
    (sc = [] → plan.searchGroup = none) ∧
    (∀ r : Row, rowMatches plan r = true ↔
      (matchesEq plan.eqFilters r = true ∧ matchesSearch plan.searchGroup r = true)) ∧
    (sc ≠ [] → ∀ r : Row, matchesSearch plan.searchGroup r = true ↔
      ∃ c ∈ sc, likeMatches (getCol r c) ("%" ++ s ++ "%") = true) ∧
    (noWild (lowChars s) = true → ∀ t : String,
      likeMatches (.str t) ("%" ++ s ++ "%") = true ↔
        ∃ u v, lowChars t = u ++ lowChars s ++ v) ∧
    (∀ s2 : Option String, ∃ plan2,
      buildPlan parse sc so { p with search := s2 } = .ok plan2 ∧
      plan2.searchGroup = searchGroupOf sc s2) := by
  obtain ⟨hd, hsg, _, _, _, _⟩ := buildPlan_inv h
  have hgroup : sc ≠ [] →
      searchGroupOf sc (some s) = some (sc.map fun c => (c, "%" ++ s ++ "%")) := by
    intro hsc
    simp [searchGroupOf, hne, hsc]
  refine ⟨?_, ?_, ?_, ?_, ?_, ?_⟩
  · intro hsc
    rw [hsg, hs]
    exact hgroup hsc
  · intro hsc
    rw [hsg, hs]
    simp [searchGroupOf, hsc]
  · intro r
    simp [rowMatches]
  · intro hsc r
    rw [hsg, hs, hgroup hsc]
    simp [matchesSearch, List.any_map, List.any_eq_true, Function.comp]
  · intro hnw t
    simp only [likeMatches, lowChars_pattern,
      likeMatch_pct_seg_pct (lowChars s) hnw, hasSeg_iff]
  · intro s2
    exact ⟨_, buildPlan_eq_of_decode hd, rfl⟩

/-- C8 witness: the theorem applied to the single searchable column `name`
and the wildcard-free search text `bo`. -/
theorem findAll_search_group_spec_witness :
    ((["name"] : List String) ≠ [] →
      QueryPlan.searchGroup ⟨[], some [("name", "%bo%")], "id", false, 0, 10⟩ =
        some (["name"].map fun c => (c, "%" ++ "bo" ++ "%"))) ∧
    ((["name"] : List String) = [] →
      QueryPlan.searchGroup ⟨[], some [("name", "%bo%")], "id", false, 0, 10⟩ = none) ∧
    (∀ r : Row, rowMatches ⟨[], some [("name", "%bo%")], "id", false, 0, 10⟩ r = true ↔
      (matchesEq [] r = true ∧ matchesSearch (some [("name", "%bo%")]) r = true)) ∧
    ((["name"] : List String) ≠ [] → ∀ r : Row,
      matchesSearch (some [("name", "%bo%")]) r = true ↔
        ∃ c ∈ (["name"] : List String),
          likeMatches (getCol r c) ("%" ++ "bo" ++ "%") = true) ∧
    (noWild (lowChars "bo") = true → ∀ t : String,
      likeMatches (.str t) ("%" ++ "bo" ++ "%") = true ↔
        ∃ u v, lowChars t = u ++ lowChars "bo" ++ v) ∧
    (∀ s2 : Option String, ∃ plan2,
      buildPlan (fun _ => none) ["name"] ["id"]
        { (⟨1, 10, none, none, some "bo", none⟩ : AbstractPaginationDto)
          with search := s2 } = .ok plan2 ∧
      plan2.searchGroup = searchGroupOf ["name"] s2) :=
  findAll_search_group_spec (fun _ => none) ["name"] ["id"]
    ⟨1, 10, none, none, some "bo", none⟩ "bo"
    ⟨[], some [("name", "%bo%")], "id", false, 0, 10⟩ rfl (by decide) rfl

/-- C9: for every valid list request whose filters stage does not throw,
`findAll` succeeds, skips exactly (page - 1) * limit rows of the ordered
matching rows and keeps at most `limit` of them, echoes `page` and `limit`
back, bounds the data length by both `limit` and `total`, and a page whose
offset reaches past the matching rows yields empty data with the correct
total rather than an error. -/
theorem findAll_pagination_bounds
    (parse : String → Option (List (String × Value)))
    (sc so : List String) (table : List Row) (p : AbstractPaginationDto)
    (hf : filtersParseOk parse p = true) (_hpage : 1 ≤ p.page) (_hlim : 1 ≤ p.limit) :
    ∃ plan r, buildPlan parse sc so p = .ok plan ∧
      findAll parse sc so table p = .ok r ∧
      plan.skip = (p.page - 1) * p.limit ∧ plan.take = p.limit ∧
      r.data = pageRows plan table ∧
      r.total = (matchedRows plan table).length ∧
      r.page = p.page ∧ r.limit = p.limit ∧
      r.data.length ≤ p.limit ∧ r.data.length ≤ r.total ∧
      (r.total ≤ (p.page - 1) * p.limit → r.data = []) := by
  obtain ⟨eqf, hd⟩ := decodeFilters_ok hf
  have hb : buildPlan parse sc so p =
      .ok ⟨eqf, searchGroupOf sc p.search, safeSortOf so p.sortBy,
        orderDescOf p.order, (p.page - 1) * p.limit, p.limit⟩ :=
    buildPlan_eq_of_decode hd
  refine ⟨_, _, hb, findAll_ok_of_plan hb, rfl, rfl, rfl, rfl, rfl, rfl,
    length_pageRows_le_take _ table, length_pageRows_le_matched _ table, ?_⟩
  intro htot
  exact pageRows_eq_nil_of_skip _ table htot

/-- C9 witness: page 3 of limit 5 over a single-row table is an empty page
with total 1 and no error. -/
theorem findAll_pagination_bounds_witness :
    ∃ plan r, buildPlan (fun _ => none) [] ["id"]
        (⟨3, 5, none, none, none, none⟩ : AbstractPaginationDto) = .ok plan ∧
      findAll (fun _ => none) [] ["id"] [(⟨1, []⟩ : Row)]
        (⟨3, 5, none, none, none, none⟩ : AbstractPaginationDto) = .ok r ∧
      plan.skip = (3 - 1) * 5 ∧ plan.take = 5 ∧
      r.data = pageRows plan [(⟨1, []⟩ : Row)] ∧
      r.total = (matchedRows plan [(⟨1, []⟩ : Row)]).length ∧
      r.page = 3 ∧ r.limit = 5 ∧
      r.data.length ≤ 5 ∧ r.data.length ≤ r.total ∧
      (r.total ≤ (3 - 1) * 5 → r.data = []) :=
  findAll_pagination_bounds (fun _ => none) [] ["id"] [(⟨1, []⟩ : Row)]
    ⟨3, 5, none, none, none, none⟩ rfl (by decide) (by decide)

/-- C10: the search text is spliced into the `LIKE` pattern without escaping
the wildcard characters, so a search string containing a percent sign makes
`findAll` return a row although no searchable column of that row contains the
search string as a literal (even case-insensitive) substring. -/
theorem findAll_wildcard_search_leak :
    ∃ (table : List Row) (p : AbstractPaginationDto) (s : String)
      (res : PaginatedResult) (row : Row),
      p.search = some s ∧ s.data.contains '%' = true ∧
      findAll (fun _ => none) ["name"] ["id"] table p = .ok res ∧
      row ∈ res.data ∧
      (∀ t : String, getCol row "name" = .str t →
        ¬ ∃ u v, lowChars t = u ++ lowChars s ++ v) := by
  refine ⟨[⟨1, [("name", .str "aXb")]⟩], ⟨1, 10, none, none, some "a%b", none⟩,
    "a%b", ⟨[⟨1, [("name", .str "aXb")]⟩], 1, 1, 10⟩, ⟨1, [("name", .str "aXb")]⟩,
    rfl, rfl, rfl, List.mem_singleton.mpr rfl, ?_⟩
  intro t ht
  have hteq : "aXb" = t := by simpa [getCol] using ht
  subst hteq
  rintro ⟨u, v, hseg⟩
  exact absurd ((hasSeg_iff (lowChars "a%b") (lowChars "aXb")).mpr ⟨u, v, hseg⟩)
    (by decide)
